import Mathlib

/-!
Verification development for libcifpp's symmetry-operator table generator
(`tools/symop-map-generator.cpp`) and the symmetry-aware distance index
(`src/Structure.cpp`, `DistanceMap`).

Conventions of the shallow embedding:
* C++ `int` is modelled as `Int`; C++ `/` and `%` on `int` truncate toward
  zero, so they are `Int.tdiv` and `Int.tmod`.
* `std::array<int,15>` (the packed symmetry operator: 9 row-major
  rotation entries followed by 3 numerator/denominator translation pairs)
  is modelled as a `List Int` of length 15, indexed with `List.getD` and
  updated with `List.set`.
* `double` coordinates are modelled as `ℚ`; the distance-map build only
  ever compares squared distances against the squared cutoff
  (`minR2 < kMaxDistanceSQ`), which is exact over `ℚ`.  Cached values are
  therefore carried as squared distances (the C++ stores `sqrt(minR2)`,
  a strictly monotone image of the same quantity).
* Exceptions are modelled with `Except String`; `std::map` lookups with
  association lists and `List.lookup`.
-/

namespace Cifpp

/-! ## Tokenizer of `SymopParser` (symop-map-generator.cpp)

`SymopParser::next_token` skips `' '` characters (only the space
character), then classifies a single character: `x`/`X`, `y`/`Y`, `z`/`Z`
give token XYZ with `m_nr` = 0/1/2, a digit gives token Number with
`m_nr` = its value, anything else is returned verbatim by
`result = (Token)ch` — in particular a NUL byte yields `(Token)'\0'`,
which is the same enum value as `Token::Eof = 0` — and running off the
end of the input gives Eof. -/

/-- One token of `SymopParser::next_token`.  `axis i` carries the `m_nr`
value for `x`/`y`/`z`; `num n` carries the digit; `sym c` is any other
character returned verbatim; `eof` is `Token::Eof` — produced both at
the end of the input and by a NUL character, which aliases the enum
value 0. -/
inductive Tok where
  | eof : Tok
  | num : Nat → Tok
  | axis : Nat → Tok
  | sym : Char → Tok
deriving DecidableEq

/-- Classification of one non-space character, as in the `switch` of
`next_token`.  `(Token)'\0'` equals `Token::Eof`, so NUL maps to
`Tok.eof`. -/
def classify (c : Char) : Tok :=
  if c = 'x' ∨ c = 'X' then Tok.axis 0
  else if c = 'y' ∨ c = 'Y' then Tok.axis 1
  else if c = 'z' ∨ c = 'Z' then Tok.axis 2
  else if c.isDigit then Tok.num (c.toNat - '0'.toNat)
  else if c = '\x00' then Tok.eof
  else Tok.sym c

/-- One call of `next_token` on the remaining characters (`m_p`/`m_e`):
spaces are consumed and skipped; the first other character is consumed
and classified; exhaustion gives Eof.  The second component is the new
remainder (the position of `m_p` afterwards). -/
def nextToken : List Char → Tok × List Char
  | [] => (Tok.eof, [])
  | c :: cs => if c = ' ' then nextToken cs else (classify c, cs)

/-! ## Recursive-descent parser (`SymopParser::parse` / `parsepart`)

The parser state mirrors the members of `SymopParser`: the lookahead
token, the not-yet-consumed characters (the `m_p`/`m_e` range), `m_rot`
(row-major, 9 entries) and `m_trn` (3 pairs, flattened to 6 entries).
Errors (`throw std::runtime_error`) become `Except.error`. -/

/-- Parser state: lookahead token, remaining characters, `m_rot`
(row-major, 9 entries) and `m_trn` (row-major pairs, 6 entries). -/
structure PS where
  look : Tok
  rest : List Char
  rotv : List Int
  trnv : List Int
deriving DecidableEq

/-- Fetch the next lookahead: `m_lookahead = next_token()`. -/
def advance (ps : PS) : PS :=
  { ps with look := (nextToken ps.rest).1, rest := (nextToken ps.rest).2 }

/-- `SymopParser::match`: the lookahead must be the expected token. -/
def matchTok (t : Tok) (ps : PS) : Except String PS :=
  if ps.look = t then Except.ok (advance ps) else Except.error "Unexpected character"

/-- One iteration of the do-while body of `parsepart(row)`: an optional
sign, then either `digit / digit` (a translation fraction, stored with
the sign on the numerator) or an axis letter (a rotation entry set to
the sign). -/
def termStep (row : Nat) (ps0 : PS) : Except String PS :=
  let sign : Int := if ps0.look = Tok.sym '-' then -1 else 1
  let ps := if ps0.look = Tok.sym '-' ∨ ps0.look = Tok.sym '+' then advance ps0 else ps0
  match ps.look with
  | Tok.num n =>
    let ps1 := advance { ps with trnv := ps.trnv.set (2 * row) (sign * (n : Int)) }
    if ps1.look = Tok.sym '/' then
      let ps2 := advance ps1
      match ps2.look with
      | Tok.num d => Except.ok (advance { ps2 with trnv := ps2.trnv.set (2 * row + 1) (d : Int) })
      | _ => Except.error "Unexpected character, expected number"
    else Except.error "Unexpected character, expected /"
  | Tok.axis a => Except.ok (advance { ps with rotv := ps.rotv.set (3 * row + a) sign })
  | _ => Except.error "Unexpected character, expected x, y, z or number"

/-- The do-while loop of `parsepart(row)`: repeat `termStep` while the
lookahead is `+` or `-`.  The fuel bounds the number of iterations; each
continuing iteration consumes at least one token, so
`rest.length + 1` iterations always suffice. -/
def partLoop (row : Nat) : Nat → PS → Except String PS
  | 0, _ => Except.error "fuel exhausted"
  | fuel + 1, ps =>
    match termStep row ps with
    | Except.error e => Except.error e
    | Except.ok ps1 =>
      if ps1.look = Tok.sym '+' ∨ ps1.look = Tok.sym '-' then partLoop row fuel ps1
      else Except.ok ps1

/-- Initial parser state: `m_lookahead = next_token()`, rotation and
translation tables zero-initialised (`int m_rot[3][3] = {}` etc.). -/
def initPS (cs : List Char) : PS :=
  ⟨(nextToken cs).1, (nextToken cs).2, List.replicate 9 0, List.replicate 6 0⟩

/-- `SymopParser::parse`: three comma-separated parts; afterwards the
source checks `m_lookahead != 0 or m_p != m_e` — the lookahead must be
Eof (value 0, also produced by a NUL byte) and the character iterator
must be at the end.  The result is the 15-element array
`{rot[0][0..2], rot[1][0..2], rot[2][0..2], trn[0][0..1], trn[1][0..1],
trn[2][0..1]}`. -/
def runParse (cs : List Char) : Except String (List Int) := do
  let ps := initPS cs
  let ps ← partLoop 0 (ps.rest.length + 1) ps
  let ps ← matchTok (Tok.sym ',') ps
  let ps ← partLoop 1 (ps.rest.length + 1) ps
  let ps ← matchTok (Tok.sym ',') ps
  let ps ← partLoop 2 (ps.rest.length + 1) ps
  if ps.look = Tok.eof ∧ ps.rest = [] then Except.ok (ps.rotv ++ ps.trnv)
  else Except.error "symmetry expression contains more data than expected"

/-- Parse a symmetry expression string. -/
def parseSymop (s : String) : Except String (List Int) := runParse s.data

/-! ## `move_symop` (symop-map-generator.cpp)

`move_symop(symop, cenop)` adds the centering operator's translation to
the primary operator's, row by row (`for (int i = 9; i < 15; i += 2)`).
A row with `cenop[i] == 0` is skipped (`continue`); a row with
`symop[i] == 0` takes the centering pair verbatim (`continue`); otherwise
the fractions are added (numerators added when the denominators are
equal, else cross-multiplied), each of the factors 5, 4, 3, 2 is divided
out at most once (`for (int j = 5; j > 1; --j) if (...)`), the numerator
is wrapped by `symop[i] = (symop[i] + symop[i+1]) % symop[i+1]` and, when
it thereby becomes 0, the denominator is forced to 0.  The `assert`s of
the source (`cenop[i+1] != 0` when `cenop[i] != 0`, `symop[i+1] == 0`
when `symop[i] == 0`) are compiled out in release builds and are not part
of the modelled behaviour. -/

/-- One pass of the factor-removal loop body at factor `j`, acting on the
row at indices `i`, `i+1` of the array. -/
def redStep (i : Nat) (t : List Int) (j : Int) : List Int :=
  if Int.tmod (t.getD i 0) j = 0 ∧ Int.tmod (t.getD (i + 1) 0) j = 0 then
    (t.set i (Int.tdiv (t.getD i 0) j)).set (i + 1) (Int.tdiv (t.getD (i + 1) 0) j)
  else t

/-- The body of `move_symop`'s row loop for one value of `i`
(`i ∈ {9, 11, 13}`). -/
def moveRowAt (s c : List Int) (i : Nat) : List Int :=
  if c.getD i 0 = 0 then s
  else if s.getD i 0 = 0 then (s.set i (c.getD i 0)).set (i + 1) (c.getD (i + 1) 0)
  else
    let s1 :=
      if s.getD (i + 1) 0 = c.getD (i + 1) 0 then s.set i (s.getD i 0 + c.getD i 0)
      else
        (s.set i (s.getD i 0 * c.getD (i + 1) 0 + s.getD (i + 1) 0 * c.getD i 0)).set
          (i + 1) (s.getD (i + 1) 0 * c.getD (i + 1) 0)
    let s2 := [5, 4, 3, 2].foldl (redStep i) s1
    let s3 := s2.set i (Int.tmod (s2.getD i 0 + s2.getD (i + 1) 0) (s2.getD (i + 1) 0))
    if s3.getD i 0 = 0 then s3.set (i + 1) 0 else s3

/-- `move_symop`: the row loop unrolled over `i = 9, 11, 13`. -/
def move_symop (s c : List Int) : List Int :=
  moveRowAt (moveRowAt (moveRowAt s c 9) c 11) c 13

/-! ### Row-level description of `move_symop`

`combineRow` states what one iteration of the row loop does to the pair
`(numerator, denominator)` of a single translation row; the theorems
below prove the array-level `move_symop` equal to it row by row. -/

/-- Factor removal on a (numerator, denominator) pair. -/
def reduceOnce (f : Int × Int) (j : Int) : Int × Int :=
  if Int.tmod f.1 j = 0 ∧ Int.tmod f.2 j = 0 then (Int.tdiv f.1 j, Int.tdiv f.2 j) else f

/-- Row-level composition of a primary translation row `s` with a
centering translation row `c`. -/
def combineRow (s c : Int × Int) : Int × Int :=
  if c.1 = 0 then s
  else if s.1 = 0 then c
  else
    let f := if s.2 = c.2 then (s.1 + c.1, s.2) else (s.1 * c.2 + s.2 * c.1, s.2 * c.2)
    let f2 := [5, 4, 3, 2].foldl reduceOnce f
    let n := Int.tmod (f2.1 + f2.2) f2.2
    if n = 0 then (0, 0) else (n, f2.2)

/-- The rational value of a (numerator, denominator) pair; the pair
`(0, 0)` is the canonical "no offset" marker and stands for 0. -/
def fracVal (p : Int × Int) : ℚ := if p.2 = 0 then 0 else (p.1 : ℚ) / (p.2 : ℚ)

/-! ### Checked (total) variant of `move_symop`

Every `/` and `%` of the source is replaced by a checked operation that
fails on a zero divisor; the theorem for the safety claim shows the
failure branch unreachable under the row precondition. -/

/-- `a % b` with truncation toward zero, `none` when `b = 0`. -/
def tmodC (a b : Int) : Option Int := if b = 0 then none else some (Int.tmod a b)

/-- `a / b` with truncation toward zero, `none` when `b = 0`. -/
def tdivC (a b : Int) : Option Int := if b = 0 then none else some (Int.tdiv a b)

/-- Checked `redStep`. -/
def redStepC (i : Nat) (t : List Int) (j : Int) : Option (List Int) := do
  let m1 ← tmodC (t.getD i 0) j
  let m2 ← tmodC (t.getD (i + 1) 0) j
  if m1 = 0 ∧ m2 = 0 then
    let q1 ← tdivC (t.getD i 0) j
    let q2 ← tdivC (t.getD (i + 1) 0) j
    pure ((t.set i q1).set (i + 1) q2)
  else
    pure t

/-- Checked row-loop body. -/
def moveRowAtC (s c : List Int) (i : Nat) : Option (List Int) :=
  if c.getD i 0 = 0 then some s
  else if s.getD i 0 = 0 then some ((s.set i (c.getD i 0)).set (i + 1) (c.getD (i + 1) 0))
  else do
    let s1 :=
      if s.getD (i + 1) 0 = c.getD (i + 1) 0 then s.set i (s.getD i 0 + c.getD i 0)
      else
        (s.set i (s.getD i 0 * c.getD (i + 1) 0 + s.getD (i + 1) 0 * c.getD i 0)).set
          (i + 1) (s.getD (i + 1) 0 * c.getD (i + 1) 0)
    let s2 ← List.foldlM (redStepC i) s1 [5, 4, 3, 2]
    let n ← tmodC (s2.getD i 0 + s2.getD (i + 1) 0) (s2.getD (i + 1) 0)
    let s3 := s2.set i n
    pure (if s3.getD i 0 = 0 then s3.set (i + 1) 0 else s3)

/-- Checked `move_symop`. -/
def move_symopC (s c : List Int) : Option (List Int) := do
  let s1 ← moveRowAtC s c 9
  let s2 ← moveRowAtC s1 c 11
  moveRowAtC s2 c 13

/-- Row precondition: in each translation row of the 15-element array, a
nonzero numerator comes with a nonzero denominator (what the source's
`assert`s expect of parsed operators). -/
def rowsWellFormed (l : List Int) : Prop :=
  (l.getD 9 0 ≠ 0 → l.getD 10 0 ≠ 0) ∧
  (l.getD 11 0 ≠ 0 → l.getD 12 0 ≠ 0) ∧
  (l.getD 13 0 ≠ 0 → l.getD 14 0 ≠ 0)

instance (l : List Int) : Decidable (rowsWellFormed l) := by
  unfold rowsWellFormed; infer_instance

/-! ## DistanceMap (src/Structure.cpp)

Coordinates are rational; squared distances replace `sqrt`-ed ones (the
build compares `minR2 < kMaxDistanceSQ` with `kMaxDistanceSQ = 25`, so
the comparison is exact).  The crystal-mode transform list (space-group
operators crossed with the 27 neighbour-cell translations, built by
`AlternativeSites`) enters as an opaque list of point maps, exactly as
the constructor iterates over `rtOrth`. -/

/-- A 3-D point (`clipper::Coord_orth` / `mmcif::Point`). -/
structure Pt where
  x : ℚ
  y : ℚ
  z : ℚ
deriving DecidableEq

/-- Componentwise difference. -/
def psub (p q : Pt) : Pt := ⟨p.x - q.x, p.y - q.y, p.z - q.z⟩

/-- Squared length. -/
def sqNorm (p : Pt) : ℚ := p.x * p.x + p.y * p.y + p.z * p.z

/-- Squared distance (`(pi - pj).lengthsq()`). -/
def sqDist (p q : Pt) : ℚ := sqNorm (psub p q)

/-- Stands in for `numeric_limits<double>::max()`, the initial value of
`minR2`; any value at least the squared cutoff 25 gives the same cache. -/
def dblMax : ℚ := 10 ^ 100

/-- The origin, used as the `getD` default. -/
def origin : Pt := ⟨0, 0, 0⟩

/-- Minimum squared distance from `pi` to any transformed image of `pj`
(the inner `for (auto rt : rtOrth)` loop). -/
def minR2 (ts : List (Pt → Pt)) (pi pj : Pt) : ℚ :=
  (ts.map fun rt => sqDist pi (rt pj)).foldl min dblMax

/-- The pair cache built by the crystal-mode constructor: for every pair
`i < j`, the minimal-image squared distance is computed and the pair is
stored only when it is below the squared cutoff 25.  The worker threads
partition the outer index `i`; the resulting map does not depend on the
schedule, so the build is modelled sequentially. -/
def crystalPairs (ts : List (Pt → Pt)) (locs : List Pt) : List ((Nat × Nat) × ℚ) :=
  (List.range locs.length).flatMap fun i =>
    ((List.range locs.length).filter fun j => i < j).filterMap fun j =>
      let m := minR2 ts (locs.getD i origin) (locs.getD j origin)
      if m < 25 then some ((i, j), m) else none

/-- The pair cache built by the plain-mode constructor: every pair
`i < j` is stored, with no cutoff test
(`dist[make_tuple(i, j)] = Distance(atoms[i].location(), atoms[j].location())`). -/
def plainPairs (locs : List Pt) : List ((Nat × Nat) × ℚ) :=
  (List.range locs.length).flatMap fun i =>
    ((List.range locs.length).filter fun j => i < j).map fun j =>
      ((i, j), sqDist (locs.getD i origin) (locs.getD j origin))

/-- A built distance map: the atom-id → slot index (`std::map<string,size_t>`)
and the pair cache (`std::map<tuple<size_t,size_t>,float>`), both as
association lists. -/
structure DistMap where
  index : List (String × Nat)
  dist : List ((Nat × Nat) × ℚ)

/-- The canonical cache key: `if (ixb < ixa) swap(ixa, ixb)`. -/
def canonKey (ixa ixb : Nat) : Nat × Nat := if ixb < ixa then (ixb, ixa) else (ixa, ixb)

/-- `DistanceMap::operator()`: look both atoms up in the index (throwing
when absent), canonicalise the key, and return the cached value or the
sentinel 100. -/
def dmQuery (dm : DistMap) (a b : String) : Except String ℚ :=
  match dm.index.lookup a with
  | none => Except.error ("atom " ++ a ++ " not found in distance map")
  | some ixa =>
    match dm.index.lookup b with
    | none => Except.error ("atom " ++ b ++ " not found in distance map")
    | some ixb => Except.ok ((dm.dist.lookup (canonKey ixa ixb)).getD 100)

/-- `DistanceMap::near`: look the atom up (throwing when absent), then
scan the whole index and keep every other atom whose cached distance is
at most `maxD`. -/
def dmNear (dm : DistMap) (a : String) (maxD : ℚ) : Except String (List String) :=
  match dm.index.lookup a with
  | none => Except.error ("atom " ++ a ++ " not found in distance map")
  | some ixa =>
    Except.ok (dm.index.filterMap fun p =>
      if p.2 = ixa then none
      else
        match dm.dist.lookup (if ixa < p.2 then (ixa, p.2) else (p.2, ixa)) with
        | some d => if d ≤ maxD then some p.1 else none
        | none => none)

/-- `true` for `Except.ok`, `false` for `Except.error`. -/
def exOk {ε α : Type} : Except ε α → Bool
  | Except.ok _ => true
  | Except.error _ => false

/-! ## `toCell` and the generator's `main`

`toCell` wraps an orthogonal coordinate into the unit cell with six
while loops.  The source's conditions for the y and z axes compare
against `cell.a()` (not `cell.b()` / `cell.c()`); the embedding keeps
that faithfully.  The loops are written with explicit fuel; at the
inputs of the theorems below no iteration runs, so the result is
fuel-independent. -/

/-- `while (p < 0) p += step;` with explicit fuel. -/
def whileAddNeg : Nat → ℚ → ℚ → ℚ
  | 0, _, p => p
  | f + 1, step, p => if p < 0 then whileAddNeg f step (p + step) else p

/-- `while (p > bound) p -= step;` with explicit fuel. -/
def whileSubGt : Nat → ℚ → ℚ → ℚ → ℚ
  | 0, _, _, p => p
  | f + 1, bound, step, p => if bound < p then whileSubGt f bound step (p - step) else p

/-- Unit-cell edge lengths (`clipper::Cell`'s `a()`, `b()`, `c()`). -/
structure Cell where
  a : ℚ
  b : ℚ
  c : ℚ

/-- `toCell` exactly as in the source: the x loops use edge `a` for both
condition and step; the y and z loops step by `b` resp. `c` but compare
against `a`. -/
def toCell (fuel : Nat) (cell : Cell) (p : Pt) : Pt :=
  ⟨whileSubGt fuel cell.a cell.a (whileAddNeg fuel cell.a p.x),
   whileSubGt fuel cell.a cell.b (whileAddNeg fuel cell.b p.y),
   whileSubGt fuel cell.a cell.c (whileAddNeg fuel cell.c p.z)⟩

/-- Control flow of the generator's `main`: the try block writes the
generated table to `<output>.tmp` and, as its last step, renames the
temporary over the destination; the catch block reports the exception;
both paths fall through to the single `return 0;`.  The first component
is the destination's content after the run (`dest0` is its prior
content), the second the process exit status. -/
def toolRun (dest0 : Option String) (body : Except String String) : Option String × Int :=
  match body with
  | Except.ok content => (some content, 0)
  | Except.error _ => (dest0, 0)

/-! ## Auxiliary definitions for the statements -/

/-- Case-folding of the three axis letters (the only letters the
tokenizer treats case-insensitively). -/
def foldXYZ (c : Char) : Char :=
  if c = 'X' then 'x' else if c = 'Y' then 'y' else if c = 'Z' then 'z' else c

/-- A character list up to the transformations the tokenizer is
insensitive to: space characters removed, axis letters lower-cased. -/
def normChars (cs : List Char) : List Char :=
  (cs.filter fun c => c != ' ').map foldXYZ

/-- A symmetry expression up to the transformations the tokenizer is
insensitive to: space characters removed, axis letters lower-cased. -/
def normalizeExpr (s : String) : List Char := normChars s.data

/-- Two parser states that run in lock-step: same lookahead, space-and-
case-equivalent NUL-free remainders, equal tables; and, since without a
NUL byte `next_token` only returns Eof after consuming the whole input,
an Eof lookahead comes with an exhausted remainder on both sides. -/
def RelPS (pc pt : PS) : Prop :=
  pc.look = pt.look ∧
  normChars pc.rest = normChars pt.rest ∧
  ('\x00' : Char) ∉ pc.rest ∧
  ('\x00' : Char) ∉ pt.rest ∧
  pc.rotv = pt.rotv ∧
  pc.trnv = pt.trnv ∧
  (pc.look = Tok.eof → pc.rest = [] ∧ pt.rest = [])

/-- The state `x` has consumed at least as much of the input as `ps`:
both the raw and the space-stripped remainders are no longer. -/
def RestLe (x ps : PS) : Prop :=
  x.rest.length ≤ ps.rest.length ∧
  (normChars x.rest).length ≤ (normChars ps.rest).length

/-- Every entry of the list is −1, 0 or 1. -/
def rotBounded (l : List Int) : Prop := ∀ v ∈ l, v = -1 ∨ v = 0 ∨ v = 1

/-- The (numerator, denominator) pair stored at indices `i`, `i+1`. -/
def rowPair (l : List Int) (i : Nat) : Int × Int := (l.getD i 0, l.getD (i + 1) 0)

/-- A sample packed primary operator (identity with translation rows
`1/2`, `0`, `1/4`), used to instantiate hypotheses at concrete inputs. -/
def sampleSym : List Int := [1, 0, 0, 0, 1, 0, 0, 0, 1, 1, 2, 0, 0, 1, 4]

/-- A sample packed centering operator (translations `1/2`, `1/2`, `1/2`). -/
def sampleCen : List Int := [1, 0, 0, 0, 1, 0, 0, 0, 1, 1, 2, 1, 2, 1, 2]

end Cifpp

deriving instance DecidableEq for Except

namespace Cifpp

/-! # Theorems -/

/-! ## List helper lemmas -/

theorem getD_set_ne (l : List Int) (i j : Nat) (v : Int) (h : i ≠ j) :
    (l.set i v).getD j 0 = l.getD j 0 := by
  simp [List.getD_eq_getElem?_getD, List.getElem?_set_ne h]

theorem getD_set_self (l : List Int) (i : Nat) (v : Int) (h : i < l.length) :
    (l.set i v).getD i 0 = v := by
  simp [List.getD_eq_getElem?_getD, List.getElem?_set_self, h]

theorem getD_pos_of_ne (l : List Int) (i : Nat) (h : l.getD i 0 ≠ 0) : i < l.length := by
  by_contra hlt
  exact h (by simp [List.getD_eq_getElem?_getD, List.getElem?_eq_none (Nat.le_of_not_lt hlt)])

/-! ## C2, C3, C9: parser theorems -/

theorem advance_rotv (ps : PS) : (advance ps).rotv = ps.rotv := rfl

theorem rotBounded_set (l : List Int) (i : Nat) (v : Int) (hv : v = -1 ∨ v = 0 ∨ v = 1)
    (hb : rotBounded l) : rotBounded (l.set i v) := by
  intro w hw
  rcases List.mem_or_eq_of_mem_set hw with h | h
  · exact hb w h
  · subst h; exact hv

theorem advance_ite_rotv (c : Prop) [Decidable c] (a : PS) :
    (if c then advance a else a).rotv = a.rotv := by
  split
  · exact advance_rotv a
  · rfl

theorem termStep_rotv (row : Nat) (ps ps1 : PS) (h : termStep row ps = Except.ok ps1)
    (hlen : ps.rotv.length = 9) (hb : rotBounded ps.rotv) :
    ps1.rotv.length = 9 ∧ rotBounded ps1.rotv := by
  have hsign : (if ps.look = Tok.sym '-' then (-1 : Int) else 1) = -1 ∨
      (if ps.look = Tok.sym '-' then (-1 : Int) else 1) = 1 := by
    split
    · exact Or.inl rfl
    · exact Or.inr rfl
  simp only [termStep] at h
  repeat' split at h
  all_goals try exact Except.noConfusion h
  all_goals cases h
  all_goals simp only [advance_rotv, advance_ite_rotv]
  all_goals try exact ⟨hlen, hb⟩
  all_goals refine ⟨by simp [hlen], rotBounded_set _ _ _ (by simp) hb⟩

theorem partLoop_rotv (row : Nat) (fuel : Nat) (ps ps1 : PS)
    (h : partLoop row fuel ps = Except.ok ps1) (hlen : ps.rotv.length = 9)
    (hb : rotBounded ps.rotv) : ps1.rotv.length = 9 ∧ rotBounded ps1.rotv := by
  induction fuel generalizing ps with
  | zero => exact Except.noConfusion h
  | succ f ih =>
    unfold partLoop at h
    cases hts : termStep row ps with
    | error e => rw [hts] at h; exact Except.noConfusion h
    | ok ps2 =>
      rw [hts] at h
      have h2 := termStep_rotv row ps ps2 hts hlen hb
      replace h : (if ps2.look = Tok.sym '+' ∨ ps2.look = Tok.sym '-' then partLoop row f ps2
          else Except.ok ps2) = Except.ok ps1 := h
      by_cases hc : ps2.look = Tok.sym '+' ∨ ps2.look = Tok.sym '-'
      · rw [if_pos hc] at h
        exact ih ps2 h h2.1 h2.2
      · rw [if_neg hc] at h
        cases h
        exact h2

theorem matchTok_rotv (t : Tok) (ps ps1 : PS) (h : matchTok t ps = Except.ok ps1) :
    ps1.rotv = ps.rotv := by
  unfold matchTok at h
  split at h
  · cases h; exact advance_rotv ps
  · exact Except.noConfusion h

theorem initPS_rotv (cs : List Char) : (initPS cs).rotv = List.replicate 9 0 := rfl

theorem except_ok_bind {α β : Type} (a : α) (f : α → Except String β) :
    (Except.ok a >>= f) = f a := rfl

theorem except_bind_ok {α β : Type} (x : Except String α) (f : α → Except String β) (b : β)
    (h : x >>= f = Except.ok b) : ∃ a, x = Except.ok a ∧ f a = Except.ok b := by
  cases x with
  | error e => exact absurd h (by simp [Bind.bind, Except.bind])
  | ok a => exact ⟨a, rfl, by simpa [Bind.bind, Except.bind] using h⟩

/-- C3 (amended): every rotation entry of a parse result is −1, 0 or 1.
(The claim's "exactly one nonzero per row and per column" part is refuted
by `c3_counterexample`.) -/
theorem c3_rot_entries_bounded (s : String) (res : List Int)
    (h : parseSymop s = Except.ok res) : ∀ v ∈ res.take 9, v = -1 ∨ v = 0 ∨ v = 1 := by
  unfold parseSymop runParse at h
  have h0len : (initPS s.data).rotv.length = 9 := by
    rw [initPS_rotv]; simp
  have h0b : rotBounded (initPS s.data).rotv := by
    rw [initPS_rotv]
    intro v hv
    rcases List.eq_of_mem_replicate hv with rfl
    simp
  obtain ⟨psA, hA, h⟩ := except_bind_ok _ _ _ h
  have hAi := partLoop_rotv _ _ _ _ hA h0len h0b
  obtain ⟨psB, hB, h⟩ := except_bind_ok _ _ _ h
  have hBr := matchTok_rotv _ _ _ hB
  obtain ⟨psC, hC, h⟩ := except_bind_ok _ _ _ h
  have hCi := partLoop_rotv _ _ _ _ hC (by rw [hBr]; exact hAi.1) (by rw [hBr]; exact hAi.2)
  obtain ⟨psD, hD, h⟩ := except_bind_ok _ _ _ h
  have hDr := matchTok_rotv _ _ _ hD
  obtain ⟨psE, hE, h⟩ := except_bind_ok _ _ _ h
  have hEi := partLoop_rotv _ _ _ _ hE (by rw [hDr]; exact hCi.1) (by rw [hDr]; exact hCi.2)
  split at h
  · cases h
    rw [← hEi.1, List.take_left]
    exact hEi.2
  · exact Except.noConfusion h

/-- C3 witness: a concrete accepted expression whose rotation entries
are all in {−1, 0, 1}. -/
theorem c3_witness :
    parseSymop "x,y,z" = Except.ok [1, 0, 0, 0, 1, 0, 0, 0, 1, 0, 0, 0, 0, 0, 0] ∧
    ∀ v ∈ ([1, 0, 0, 0, 1, 0, 0, 0, 1, 0, 0, 0, 0, 0, 0] : List Int).take 9,
      v = -1 ∨ v = 0 ∨ v = 1 :=
  ⟨by decide, c3_rot_entries_bounded "x,y,z" _ (by decide)⟩

/-- C3 counterexample: `"x+y,x,z"` is accepted by `parse`, yet its
rotation matrix has two nonzero entries in row 0 (positions 0 and 1) and
two nonzero entries in column 0 (positions 0 and 3), refuting "exactly
one nonzero entry per row and exactly one per column" for accepted
inputs. -/
theorem c3_counterexample :
    parseSymop "x+y,x,z" = Except.ok [1, 1, 0, 1, 0, 0, 0, 0, 1, 0, 0, 0, 0, 0, 0] ∧
    (([1, 1, 0, 1, 0, 0, 0, 0, 1] : List Int).getD 0 0 ≠ 0 ∧
     ([1, 1, 0, 1, 0, 0, 0, 0, 1] : List Int).getD 1 0 ≠ 0) ∧
    (([1, 1, 0, 1, 0, 0, 0, 0, 1] : List Int).getD 0 0 ≠ 0 ∧
     ([1, 1, 0, 1, 0, 0, 0, 0, 1] : List Int).getD 3 0 ≠ 0) := by
  decide

/-- C2 counterexample: the parse of `"1/2+x,-y,1/2-z"` stores the third
translation row as `(1, 2)` — its numerator (index 13 of the packed
array) is 1, not negative: the `-` of the third part signs the `z`
rotation entry, not the fraction. -/
theorem c2_counterexample :
    parseSymop "1/2+x,-y,1/2-z" =
      Except.ok [1, 0, 0, 0, -1, 0, 0, 0, -1, 1, 2, 0, 0, 1, 2] ∧
    ¬ (([1, 0, 0, 0, -1, 0, 0, 0, -1, 1, 2, 0, 0, 1, 2] : List Int).getD 13 0 < 0) := by
  decide

/-- C2 (amended): `parse("1/2+x,-y,1/2-z")` succeeds with rotation
`diag(1,-1,-1)` and translation rows `[(1,2),(0,0),(1,2)]`; the third
row's numerator is the positive 1 (the sign of the third part is carried
by the `z` rotation entry, which is −1). -/
theorem c2_parse_example :
    parseSymop "1/2+x,-y,1/2-z" =
      Except.ok [1, 0, 0, 0, -1, 0, 0, 0, -1, 1, 2, 0, 0, 1, 2] := by
  decide

/-! ## C9: tokenizer insensitivity -/

theorem classify_foldXYZ (c : Char) : classify (foldXYZ c) = classify c := by
  by_cases hX : c = 'X'
  · subst hX; decide
  by_cases hY : c = 'Y'
  · subst hY; decide
  by_cases hZ : c = 'Z'
  · subst hZ; decide
  simp [foldXYZ, hX, hY, hZ]

theorem classify_ne_eof (c : Char) (h : c ≠ '\x00') : classify c ≠ Tok.eof := by
  unfold classify
  repeat' split
  all_goals simp_all

/-- `next_token` on the remaining characters: either everything left is
spaces, all of it is consumed and Eof is returned; or the first
non-space character `c` is consumed and classified, and the space-
stripped remainder is the tail of the space-stripped input. -/
theorem nextToken_spec (cs : List Char) :
    (cs.filter (fun x => x != ' ') = [] ∧ nextToken cs = (Tok.eof, [])) ∨
    (∃ c rest, c ≠ ' ' ∧ c ∈ cs ∧ nextToken cs = (classify c, rest) ∧
      cs.filter (fun x => x != ' ') = c :: rest.filter (fun x => x != ' ') ∧
      rest.length < cs.length ∧ ∀ x ∈ rest, x ∈ cs) := by
  induction cs with
  | nil => exact Or.inl ⟨rfl, rfl⟩
  | cons a cs ih =>
    by_cases ha : a = ' '
    · subst ha
      rcases ih with ⟨h1, h2⟩ | ⟨c, rest, h2, h3, h4, h5, h6, h7⟩
      · refine Or.inl ⟨?_, ?_⟩
        · simp [List.filter_cons, h1]
        · simpa [nextToken] using h2
      · refine Or.inr ⟨c, rest, h2, by simp [h3], by simpa [nextToken] using h4, ?_,
          Nat.lt_succ_of_lt h6, fun x hx => by simp [h7 x hx]⟩
        simpa [List.filter_cons] using h5
    · refine Or.inr ⟨a, cs, ha, by simp, by simp [nextToken, ha], ?_, by simp,
        fun x hx => by simp [hx]⟩
      simp [List.filter_cons, ha]

theorem nul_mem_normChars (cs : List Char) (h : ('\x00' : Char) ∈ cs) :
    ('\x00' : Char) ∈ normChars cs := by
  unfold normChars
  rw [List.mem_map]
  exact ⟨'\x00', List.mem_filter.mpr ⟨h, by decide⟩, by decide⟩

/-- Drawing the next token from two space-and-case-equivalent NUL-free
remainders yields the same token, equivalent NUL-free remainders, and
(Eof only at exhaustion) empty remainders when the token is Eof. -/
theorem nextToken_rel (cs ds : List Char) (hn : normChars cs = normChars ds)
    (hc : ('\x00' : Char) ∉ cs) (hd : ('\x00' : Char) ∉ ds) :
    (nextToken cs).1 = (nextToken ds).1 ∧
    normChars (nextToken cs).2 = normChars (nextToken ds).2 ∧
    ('\x00' : Char) ∉ (nextToken cs).2 ∧ ('\x00' : Char) ∉ (nextToken ds).2 ∧
    ((nextToken cs).1 = Tok.eof → (nextToken cs).2 = [] ∧ (nextToken ds).2 = []) := by
  rcases nextToken_spec cs with ⟨hc1, hc2⟩ | ⟨c, restc, hcsp, hcmem, hceq, hcf, _, hcsub⟩ <;>
    rcases nextToken_spec ds with ⟨hd1, hd2⟩ | ⟨d, restd, hdsp, hdmem, hdeq, hdf, _, hdsub⟩
  · rw [hc2, hd2]
    exact ⟨rfl, rfl, by simp, by simp, fun _ => ⟨rfl, rfl⟩⟩
  · exfalso
    unfold normChars at hn
    rw [hc1, hdf] at hn
    simp at hn
  · exfalso
    unfold normChars at hn
    rw [hd1, hcf] at hn
    simp at hn
  · unfold normChars at hn
    rw [hcf, hdf] at hn
    simp only [List.map_cons, List.cons.injEq] at hn
    obtain ⟨hfold, htails⟩ := hn
    rw [hceq, hdeq]
    refine ⟨?_, htails, fun hx => hc (hcsub _ hx), fun hx => hd (hdsub _ hx), ?_⟩
    · show classify c = classify d
      rw [← classify_foldXYZ c, ← classify_foldXYZ d, hfold]
    · intro he
      exact absurd he (classify_ne_eof c (fun h0 => hc (h0 ▸ hcmem)))

theorem advance_rel (pc pt : PS) (h : RelPS pc pt) : RelPS (advance pc) (advance pt) := by
  obtain ⟨_, hn, hc, ht, hr, hv, _⟩ := h
  have hnt := nextToken_rel pc.rest pt.rest hn hc ht
  exact ⟨hnt.1, hnt.2.1, hnt.2.2.1, hnt.2.2.2.1, hr, hv, hnt.2.2.2.2⟩

theorem normChars_length (cs : List Char) :
    (normChars cs).length = (cs.filter fun c => c != ' ').length := by
  simp [normChars]

/-- One `next_token` call never lengthens the remainder, and strictly
shortens both the raw and the space-stripped remainders whenever it
returns a non-Eof token. -/
theorem advance_le (ps : PS) :
    RestLe (advance ps) ps ∧
    ((advance ps).look ≠ Tok.eof →
      (advance ps).rest.length < ps.rest.length ∧
      (normChars (advance ps).rest).length < (normChars ps.rest).length) := by
  rcases nextToken_spec ps.rest with ⟨h1, h2⟩ | ⟨c, rest, _, _, heq, hf, hlt, _⟩
  · have hr : (advance ps).rest = [] := by
      show (nextToken ps.rest).2 = []
      rw [h2]
    have hlk : (advance ps).look = Tok.eof := by
      show (nextToken ps.rest).1 = Tok.eof
      rw [h2]
    refine ⟨⟨?_, ?_⟩, fun hne => absurd hlk hne⟩
    · rw [hr]; simp
    · rw [hr]; simp [normChars]
  · have hr : (advance ps).rest = rest := by
      show (nextToken ps.rest).2 = rest
      rw [heq]
    have hnl : (normChars (advance ps).rest).length < (normChars ps.rest).length := by
      rw [hr, normChars_length, normChars_length, hf]
      simp
    refine ⟨⟨?_, Nat.le_of_lt hnl⟩, fun _ => ⟨?_, hnl⟩⟩
    · rw [hr]; exact Nat.le_of_lt hlt
    · rw [hr]; exact hlt

theorem restLe_ite (c : Prop) [Decidable c] (a : PS) :
    RestLe (if c then advance a else a) a := by
  split
  · exact (advance_le a).1
  · exact ⟨le_refl _, le_refl _⟩

theorem restLe_advance (x ps : PS) (h : RestLe x ps) : RestLe (advance x) ps :=
  ⟨le_trans (advance_le x).1.1 h.1, le_trans (advance_le x).1.2 h.2⟩

theorem restLe_strict (x ps : PS) (h : RestLe x ps) (hne : (advance x).look ≠ Tok.eof) :
    (advance x).rest.length < ps.rest.length ∧
    (normChars (advance x).rest).length < (normChars ps.rest).length := by
  obtain ⟨s1, s2⟩ := (advance_le x).2 hne
  exact ⟨lt_of_lt_of_le s1 h.1, lt_of_lt_of_le s2 h.2⟩

theorem RelPS_setTrnv (pc pt : PS) (h : RelPS pc pt) (i : Nat) (v : Int) :
    RelPS { pc with trnv := pc.trnv.set i v } { pt with trnv := pt.trnv.set i v } := by
  obtain ⟨hl, hn, hc, ht, hr, hv, he⟩ := h
  exact ⟨hl, hn, hc, ht, hr, by rw [hv], he⟩

theorem RelPS_setRotv (pc pt : PS) (h : RelPS pc pt) (i : Nat) (v : Int) :
    RelPS { pc with rotv := pc.rotv.set i v } { pt with rotv := pt.rotv.set i v } := by
  obtain ⟨hl, hn, hc, ht, hr, hv, he⟩ := h
  exact ⟨hl, hn, hc, ht, by rw [hr], hv, he⟩

/-- Two related states run one grammar term in lock-step: the same error,
or success with related results; on success the remainders (raw and
space-stripped, on both sides) strictly shrink unless the new lookahead
is Eof. -/
theorem termStep_rel (row : Nat) (pc pt : PS) (h : RelPS pc pt) :
    (∃ e, termStep row pc = Except.error e ∧ termStep row pt = Except.error e) ∨
    (∃ qc qt, termStep row pc = Except.ok qc ∧ termStep row pt = Except.ok qt ∧
      RelPS qc qt ∧
      (qc.look ≠ Tok.eof →
        (qc.rest.length < pc.rest.length ∧
          (normChars qc.rest).length < (normChars pc.rest).length) ∧
        (qt.rest.length < pt.rest.length ∧
          (normChars qt.rest).length < (normChars pt.rest).length))) := by
  have hl := h.1
  have hmid : RelPS (if pt.look = Tok.sym '-' ∨ pt.look = Tok.sym '+' then advance pc else pc)
      (if pt.look = Tok.sym '-' ∨ pt.look = Tok.sym '+' then advance pt else pt) := by
    split
    · exact advance_rel pc pt h
    · exact h
  have hPcle0 : RestLe
      (if pt.look = Tok.sym '-' ∨ pt.look = Tok.sym '+' then advance pc else pc) pc :=
    restLe_ite _ _
  have hPtle0 : RestLe
      (if pt.look = Tok.sym '-' ∨ pt.look = Tok.sym '+' then advance pt else pt) pt :=
    restLe_ite _ _
  simp only [termStep, hl]
  set Pc := if pt.look = Tok.sym '-' ∨ pt.look = Tok.sym '+' then advance pc else pc with hPc
  set Pt := if pt.look = Tok.sym '-' ∨ pt.look = Tok.sym '+' then advance pt else pt with hPt
  have hlm : Pc.look = Pt.look := hmid.1
  rcases hml : Pc.look with _ | n | a | ch
  all_goals have hml' : Pt.look = Pc.look := by rw [← hlm]
  all_goals rw [hml] at hml'
  all_goals rw [hml']
  all_goals simp only []
  -- eof or unexpected-symbol lookahead: both error
  case eof => exact Or.inl ⟨_, rfl, rfl⟩
  case sym => exact Or.inl ⟨_, rfl, rfl⟩
  case axis =>
    have hXle : RestLe (⟨Tok.axis a, Pc.rest,
        Pc.rotv.set (3 * row + a) (if pt.look = Tok.sym '-' then (-1 : Int) else 1),
        Pc.trnv⟩ : PS) pc := hPcle0
    have hYle : RestLe (⟨Tok.axis a, Pt.rest,
        Pt.rotv.set (3 * row + a) (if pt.look = Tok.sym '-' then (-1 : Int) else 1),
        Pt.trnv⟩ : PS) pt := hPtle0
    have hrelA : RelPS
        (advance (⟨Tok.axis a, Pc.rest,
          Pc.rotv.set (3 * row + a) (if pt.look = Tok.sym '-' then (-1 : Int) else 1),
          Pc.trnv⟩ : PS))
        (advance (⟨Tok.axis a, Pt.rest,
          Pt.rotv.set (3 * row + a) (if pt.look = Tok.sym '-' then (-1 : Int) else 1),
          Pt.trnv⟩ : PS)) :=
      advance_rel _ _ ⟨rfl, hmid.2.1, hmid.2.2.1, hmid.2.2.2.1, by rw [hmid.2.2.2.2.1],
        hmid.2.2.2.2.2.1, fun he => Tok.noConfusion he⟩
    refine Or.inr ⟨_, _, rfl, rfl, hrelA, fun hne => ?_⟩
    exact ⟨restLe_strict _ _ hXle hne,
      restLe_strict _ _ hYle (fun he => hne (hrelA.1.trans he))⟩
  case num =>
    have hX1le : RestLe (⟨Tok.num n, Pc.rest, Pc.rotv, Pc.trnv.set (2 * row)
        ((if pt.look = Tok.sym '-' then (-1 : Int) else 1) * (n : Int))⟩ : PS) pc := hPcle0
    have hY1le : RestLe (⟨Tok.num n, Pt.rest, Pt.rotv, Pt.trnv.set (2 * row)
        ((if pt.look = Tok.sym '-' then (-1 : Int) else 1) * (n : Int))⟩ : PS) pt := hPtle0
    have hq : RelPS
        (advance (⟨Tok.num n, Pc.rest, Pc.rotv, Pc.trnv.set (2 * row)
          ((if pt.look = Tok.sym '-' then (-1 : Int) else 1) * (n : Int))⟩ : PS))
        (advance (⟨Tok.num n, Pt.rest, Pt.rotv, Pt.trnv.set (2 * row)
          ((if pt.look = Tok.sym '-' then (-1 : Int) else 1) * (n : Int))⟩ : PS)) := by
      refine advance_rel _ _ ?_
      exact ⟨rfl, hmid.2.1, hmid.2.2.1, hmid.2.2.2.1, hmid.2.2.2.2.1,
        by rw [hmid.2.2.2.2.2.1], fun he => Tok.noConfusion he⟩
    by_cases hsl : (advance (⟨Tok.num n, Pc.rest, Pc.rotv, Pc.trnv.set (2 * row)
        ((if pt.look = Tok.sym '-' then (-1 : Int) else 1) * (n : Int))⟩ : PS)).look =
        Tok.sym '/'
    · rw [if_pos hsl, if_pos (show _ = Tok.sym '/' by rw [← hq.1]; exact hsl)]
      have hrelR := advance_rel _ _ hq
      have hX2le := restLe_advance _ _ (restLe_advance _ _ hX1le)
      have hY2le := restLe_advance _ _ (restLe_advance _ _ hY1le)
      rcases hrl : (advance (advance (⟨Tok.num n, Pc.rest, Pc.rotv, Pc.trnv.set (2 * row)
          ((if pt.look = Tok.sym '-' then (-1 : Int) else 1) * (n : Int))⟩ : PS))).look
        with _ | d | a2 | ch2
      all_goals have hrl' := hrl ▸ hrelR.1.symm
      all_goals rw [hrl']
      all_goals simp only []
      · exact Or.inl ⟨_, rfl, rfl⟩
      · have hrelD : RelPS
            (advance (⟨Tok.num d,
              (advance (advance (⟨Tok.num n, Pc.rest, Pc.rotv, Pc.trnv.set (2 * row)
                ((if pt.look = Tok.sym '-' then (-1 : Int) else 1) * (n : Int))⟩ : PS))).rest,
              (advance (advance (⟨Tok.num n, Pc.rest, Pc.rotv, Pc.trnv.set (2 * row)
                ((if pt.look = Tok.sym '-' then (-1 : Int) else 1) * (n : Int))⟩ : PS))).rotv,
              ((advance (advance (⟨Tok.num n, Pc.rest, Pc.rotv, Pc.trnv.set (2 * row)
                ((if pt.look = Tok.sym '-' then (-1 : Int) else 1) * (n : Int))⟩ :
                  PS))).trnv.set (2 * row + 1) (d : Int))⟩ : PS))
            (advance (⟨Tok.num d,
              (advance (advance (⟨Tok.num n, Pt.rest, Pt.rotv, Pt.trnv.set (2 * row)
                ((if pt.look = Tok.sym '-' then (-1 : Int) else 1) * (n : Int))⟩ : PS))).rest,
              (advance (advance (⟨Tok.num n, Pt.rest, Pt.rotv, Pt.trnv.set (2 * row)
                ((if pt.look = Tok.sym '-' then (-1 : Int) else 1) * (n : Int))⟩ : PS))).rotv,
              ((advance (advance (⟨Tok.num n, Pt.rest, Pt.rotv, Pt.trnv.set (2 * row)
                ((if pt.look = Tok.sym '-' then (-1 : Int) else 1) * (n : Int))⟩ :
                  PS))).trnv.set (2 * row + 1) (d : Int))⟩ : PS)) :=
          advance_rel _ _ ⟨rfl, hrelR.2.1, hrelR.2.2.1, hrelR.2.2.2.1, hrelR.2.2.2.2.1,
            by rw [hrelR.2.2.2.2.2.1], fun he => Tok.noConfusion he⟩
        refine Or.inr ⟨_, _, rfl, rfl, hrelD, fun hne => ?_⟩
        exact ⟨restLe_strict _ _ hX2le hne,
          restLe_strict _ _ hY2le (fun he => hne (hrelD.1.trans he))⟩
      · exact Or.inl ⟨_, rfl, rfl⟩
      · exact Or.inl ⟨_, rfl, rfl⟩
    · rw [if_neg hsl, if_neg (show ¬ _ = Tok.sym '/' by rw [← hq.1]; exact hsl)]
      exact Or.inl ⟨_, rfl, rfl⟩

/-- Two related states run `match` in lock-step. -/
theorem matchTok_rel (tk : Tok) (pc pt : PS) (h : RelPS pc pt) :
    (∃ e, matchTok tk pc = Except.error e ∧ matchTok tk pt = Except.error e) ∨
    (∃ qc qt, matchTok tk pc = Except.ok qc ∧ matchTok tk pt = Except.ok qt ∧
      RelPS qc qt) := by
  unfold matchTok
  rw [h.1]
  split
  · exact Or.inr ⟨advance pc, advance pt, rfl, rfl, advance_rel pc pt h⟩
  · exact Or.inl ⟨_, rfl, rfl⟩

/-- Two related states run the whole `parsepart` loop in lock-step, for
any sufficient fuels (every continuing iteration strictly shortens both
remainders, so fuel above the remainder length never runs out). -/
theorem partLoop_rel (row : Nat) (n : Nat) : ∀ (f1 f2 : Nat) (pc pt : PS), RelPS pc pt →
    (normChars pc.rest).length ≤ n → pc.rest.length < f1 → pt.rest.length < f2 →
    (∃ e, partLoop row f1 pc = Except.error e ∧ partLoop row f2 pt = Except.error e) ∨
    (∃ qc qt, partLoop row f1 pc = Except.ok qc ∧ partLoop row f2 pt = Except.ok qt ∧
      RelPS qc qt) := by
  induction n with
  | zero =>
    intro f1 f2 pc pt h hn hf1 hf2
    obtain ⟨g1, rfl⟩ : ∃ g, f1 = g + 1 := ⟨f1 - 1, by omega⟩
    obtain ⟨g2, rfl⟩ : ∃ g, f2 = g + 1 := ⟨f2 - 1, by omega⟩
    rcases termStep_rel row pc pt h with ⟨e, he1, he2⟩ | ⟨qc, qt, hq1, hq2, hrel, hstr⟩
    · exact Or.inl ⟨e, by simp [partLoop, he1], by simp [partLoop, he2]⟩
    · by_cases hcont : qc.look = Tok.sym '+' ∨ qc.look = Tok.sym '-'
      · exfalso
        have hne : qc.look ≠ Tok.eof := by
          rcases hcont with h' | h' <;> simp [h']
        obtain ⟨⟨_, h2'⟩, _⟩ := hstr hne
        omega
      · have hcont' : ¬ (qt.look = Tok.sym '+' ∨ qt.look = Tok.sym '-') := by
          rw [← hrel.1]; exact hcont
        exact Or.inr ⟨qc, qt, by simp [partLoop, hq1, hcont],
          by simp [partLoop, hq2, hcont'], hrel⟩
  | succ n ih =>
    intro f1 f2 pc pt h hn hf1 hf2
    obtain ⟨g1, rfl⟩ : ∃ g, f1 = g + 1 := ⟨f1 - 1, by omega⟩
    obtain ⟨g2, rfl⟩ : ∃ g, f2 = g + 1 := ⟨f2 - 1, by omega⟩
    rcases termStep_rel row pc pt h with ⟨e, he1, he2⟩ | ⟨qc, qt, hq1, hq2, hrel, hstr⟩
    · exact Or.inl ⟨e, by simp [partLoop, he1], by simp [partLoop, he2]⟩
    · by_cases hcont : qc.look = Tok.sym '+' ∨ qc.look = Tok.sym '-'
      · have hne : qc.look ≠ Tok.eof := by
          rcases hcont with h' | h' <;> simp [h']
        obtain ⟨⟨hs1a, hs1b⟩, hs2a, _⟩ := hstr hne
        have hcont' : qt.look = Tok.sym '+' ∨ qt.look = Tok.sym '-' := by
          rw [← hrel.1]; exact hcont
        rcases ih g1 g2 qc qt hrel (by omega) (by omega) (by omega)
          with ⟨e, he1, he2⟩ | ⟨rc, rt, hr1, hr2, hrr⟩
        · exact Or.inl ⟨e, by simp [partLoop, hq1, hcont, he1],
            by simp [partLoop, hq2, hcont', he2]⟩
        · exact Or.inr ⟨rc, rt, by simp [partLoop, hq1, hcont, hr1],
            by simp [partLoop, hq2, hcont', hr2], hrr⟩
      · have hcont' : ¬ (qt.look = Tok.sym '+' ∨ qt.look = Tok.sym '-') := by
          rw [← hrel.1]; exact hcont
        exact Or.inr ⟨qc, qt, by simp [partLoop, hq1, hcont],
          by simp [partLoop, hq2, hcont'], hrel⟩

theorem initPS_rel (cs ds : List Char) (hn : normChars cs = normChars ds)
    (hc : ('\x00' : Char) ∉ cs) (hd : ('\x00' : Char) ∉ ds) :
    RelPS (initPS cs) (initPS ds) := by
  have hnt := nextToken_rel cs ds hn hc hd
  exact ⟨hnt.1, hnt.2.1, hnt.2.2.1, hnt.2.2.2.1, rfl, rfl, hnt.2.2.2.2⟩

/-- C9 (amended): for inputs free of the NUL character, the parser's
result depends only on the input with all space characters removed and
the axis letters case-folded — inserting or removing spaces (the only
character `next_token` skips) or changing the case of `x`/`y`/`z` never
changes the outcome of `parse`.  Other whitespace such as TAB is not
skipped, and a NUL byte aliases `Token::Eof`, so around it even space
insertion changes the outcome: see `c9_counterexample`. -/
theorem c9_space_case_insensitive (s t : String)
    (hn : normalizeExpr s = normalizeExpr t)
    (h0 : ('\x00' : Char) ∉ normalizeExpr s) :
    parseSymop s = parseSymop t := by
  have hs0 : ('\x00' : Char) ∉ s.data := fun hm => h0 (nul_mem_normChars _ hm)
  have ht0 : ('\x00' : Char) ∉ t.data := fun hm =>
    h0 (by rw [hn]; exact nul_mem_normChars _ hm)
  have hrel0 : RelPS (initPS s.data) (initPS t.data) := initPS_rel _ _ hn hs0 ht0
  simp only [parseSymop, runParse]
  rcases partLoop_rel 0 ((normChars (initPS s.data).rest).length)
      ((initPS s.data).rest.length + 1) ((initPS t.data).rest.length + 1)
      (initPS s.data) (initPS t.data) hrel0 (le_refl _) (Nat.lt_succ_self _)
      (Nat.lt_succ_self _) with ⟨e, he1, he2⟩ | ⟨pA, pB, hA1, hA2, hrelA⟩
  · rw [he1, he2]
  · rw [hA1, hA2]
    simp only [except_ok_bind]
    rcases matchTok_rel (Tok.sym ',') pA pB hrelA
      with ⟨e, he1, he2⟩ | ⟨pC, pD, hC1, hC2, hrelC⟩
    · rw [he1, he2]
    · rw [hC1, hC2]
      simp only [except_ok_bind]
      rcases partLoop_rel 1 ((normChars pC.rest).length)
          (pC.rest.length + 1) (pD.rest.length + 1) pC pD hrelC (le_refl _)
          (Nat.lt_succ_self _) (Nat.lt_succ_self _)
        with ⟨e, he1, he2⟩ | ⟨pE, pF, hE1, hE2, hrelE⟩
      · rw [he1, he2]
      · rw [hE1, hE2]
        simp only [except_ok_bind]
        rcases matchTok_rel (Tok.sym ',') pE pF hrelE
          with ⟨e, he1, he2⟩ | ⟨pG, pH, hG1, hG2, hrelG⟩
        · rw [he1, he2]
        · rw [hG1, hG2]
          simp only [except_ok_bind]
          rcases partLoop_rel 2 ((normChars pG.rest).length)
              (pG.rest.length + 1) (pH.rest.length + 1) pG pH hrelG (le_refl _)
              (Nat.lt_succ_self _) (Nat.lt_succ_self _)
            with ⟨e, he1, he2⟩ | ⟨pI, pJ, hI1, hI2, hrelI⟩
          · rw [he1, he2]
          · rw [hI1, hI2]
            simp only [except_ok_bind]
            by_cases hEof : pI.look = Tok.eof
            · obtain ⟨hrc, hrt⟩ := hrelI.2.2.2.2.2.2 hEof
              rw [if_pos ⟨hEof, hrc⟩,
                if_pos ⟨by rw [← hrelI.1]; exact hEof, hrt⟩,
                hrelI.2.2.2.2.1, hrelI.2.2.2.2.2.1]
            · rw [if_neg (fun hcond => hEof hcond.1),
                if_neg (fun hcond => hEof (by rw [hrelI.1]; exact hcond.1))]

/-- C9 witness: two NUL-free spellings of the same operator, with
different spacing and letter case, parse identically. -/
theorem c9_witness :
    normalizeExpr " X , y, 1/2+z" = normalizeExpr "x,Y,1/2+Z " ∧
    ('\x00' : Char) ∉ normalizeExpr " X , y, 1/2+z" ∧
    parseSymop " X , y, 1/2+z" = parseSymop "x,Y,1/2+Z " :=
  ⟨by decide, by decide,
    c9_space_case_insensitive " X , y, 1/2+z" "x,Y,1/2+Z " (by decide) (by decide)⟩

/-- C9 counterexample: inserting a TAB — a whitespace character — in
front of `"x,y,z"` flips `parse` from success to failure (`next_token`
skips only `' '`); and because a NUL byte aliases `Token::Eof`,
`"x,y,z\x00"` is accepted (the lookahead is Eof and the iterator is at
the end) while `"x,y,z\x00 "` — the same string with one space
character inserted — is rejected by the final `m_p != m_e` check.  Both
refute the original claim that whitespace insertion never changes the
outcome. -/
theorem c9_counterexample :
    exOk (parseSymop "x,y,z") = true ∧ exOk (parseSymop "\tx,y,z") = false ∧
    exOk (parseSymop "x,y,z\x00") = true ∧ exOk (parseSymop "x,y,z\x00 ") = false := by
  decide

/-! ## C1, C10: `move_symop` -/

theorem redStep_frame (i : Nat) (t : List Int) (j : Int) (k : Nat) (h1 : i ≠ k)
    (h2 : i + 1 ≠ k) : (redStep i t j).getD k 0 = t.getD k 0 := by
  unfold redStep
  split
  · rw [getD_set_ne _ _ _ _ h2, getD_set_ne _ _ _ _ h1]
  · rfl

theorem redStep_length (i : Nat) (t : List Int) (j : Int) :
    (redStep i t j).length = t.length := by
  unfold redStep
  split <;> simp

theorem redStep_pair (i : Nat) (t : List Int) (j : Int) (hi : i + 1 < t.length) :
    rowPair (redStep i t j) i = reduceOnce (rowPair t i) j := by
  have hii : i < t.length := Nat.lt_of_succ_lt hi
  have hne : i + 1 ≠ i := Nat.succ_ne_self i
  unfold redStep reduceOnce rowPair
  dsimp only
  split
  · rw [getD_set_ne _ _ _ _ hne, getD_set_self _ _ _ hii,
      getD_set_self _ _ _ (by rw [List.length_set]; exact hi)]
  · rfl

theorem foldl_redStep_frame (js : List Int) (i : Nat) (t : List Int) (k : Nat)
    (h1 : i ≠ k) (h2 : i + 1 ≠ k) :
    (js.foldl (redStep i) t).getD k 0 = t.getD k 0 := by
  induction js generalizing t with
  | nil => rfl
  | cons j js ih => rw [List.foldl_cons, ih, redStep_frame i t j k h1 h2]

theorem foldl_redStep_length (js : List Int) (i : Nat) (t : List Int) :
    (js.foldl (redStep i) t).length = t.length := by
  induction js generalizing t with
  | nil => rfl
  | cons j js ih => rw [List.foldl_cons, ih, redStep_length]

theorem foldl_redStep_pair (js : List Int) (i : Nat) (t : List Int) (hi : i + 1 < t.length) :
    rowPair (js.foldl (redStep i) t) i = js.foldl reduceOnce (rowPair t i) := by
  induction js generalizing t with
  | nil => rfl
  | cons j js ih =>
    rw [List.foldl_cons, List.foldl_cons, ih _ (by rw [redStep_length]; exact hi),
      redStep_pair i t j hi]

theorem moveRowAt_frame (s c : List Int) (i k : Nat) (h1 : i ≠ k) (h2 : i + 1 ≠ k) :
    (moveRowAt s c i).getD k 0 = s.getD k 0 := by
  simp only [moveRowAt]
  repeat' split
  all_goals simp only [getD_set_ne _ _ _ _ h1, getD_set_ne _ _ _ _ h2,
    foldl_redStep_frame _ _ _ _ h1 h2]

theorem moveRowAt_length (s c : List Int) (i : Nat) :
    (moveRowAt s c i).length = s.length := by
  simp only [moveRowAt]
  repeat' split
  all_goals simp only [List.length_set, foldl_redStep_length]

theorem getD_set_fst (l : List Int) (i : Nat) (a : Int) (hi : i < l.length) :
    (l.set i a).getD i 0 = a := getD_set_self _ _ _ hi

theorem getD_set_snd_ne (l : List Int) (i : Nat) (a : Int) :
    (l.set i a).getD (i + 1) 0 = l.getD (i + 1) 0 :=
  getD_set_ne _ _ _ _ (Nat.ne_of_lt (Nat.lt_succ_self i))

theorem getD_set_set_fst (l : List Int) (i : Nat) (a b : Int) (hi : i + 1 < l.length) :
    ((l.set i a).set (i + 1) b).getD i 0 = a := by
  rw [getD_set_ne _ _ _ _ (Nat.succ_ne_self i)]
  exact getD_set_self _ _ _ (Nat.lt_of_succ_lt hi)

theorem getD_set_set_snd (l : List Int) (i : Nat) (a b : Int) (hi : i + 1 < l.length) :
    ((l.set i a).set (i + 1) b).getD (i + 1) 0 = b := by
  apply getD_set_self
  rw [List.length_set]
  exact hi

theorem moveRowAt_pair (s c : List Int) (i : Nat) (hi : i + 1 < s.length) :
    rowPair (moveRowAt s c i) i = combineRow (rowPair s i) (rowPair c i) := by
  have hii : i < s.length := Nat.lt_of_succ_lt hi
  simp only [moveRowAt, combineRow, rowPair]
  by_cases hc1 : c.getD i 0 = 0
  · rw [if_pos hc1, if_pos hc1]
  rw [if_neg hc1, if_neg hc1]
  by_cases hs1 : s.getD i 0 = 0
  · rw [if_pos hs1, if_pos hs1,
      getD_set_set_fst _ _ _ _ hi, getD_set_set_snd _ _ _ _ hi]
  rw [if_neg hs1, if_neg hs1]
  by_cases hd : s.getD (i + 1) 0 = c.getD (i + 1) 0
  · rw [if_pos hd, if_pos hd]
    have hAlen : i + 1 < (s.set i (s.getD i 0 + c.getD i 0)).length := by
      rw [List.length_set]; exact hi
    have hfold := foldl_redStep_pair [5, 4, 3, 2] i (s.set i (s.getD i 0 + c.getD i 0)) hAlen
    rw [show rowPair (s.set i (s.getD i 0 + c.getD i 0)) i
        = (s.getD i 0 + c.getD i 0, s.getD (i + 1) 0) by
      unfold rowPair
      rw [getD_set_fst _ _ _ hii, getD_set_snd_ne]] at hfold
    have h1 := congrArg Prod.fst hfold
    have h2 := congrArg Prod.snd hfold
    simp only [rowPair] at h1 h2
    have hulen : i + 1 < ([5, 4, 3, 2].foldl (redStep i)
        (s.set i (s.getD i 0 + c.getD i 0))).length := by
      rw [foldl_redStep_length]; exact hAlen
    rw [getD_set_fst _ _ _ (Nat.lt_of_succ_lt hulen), h1, h2]
    split
    · rename_i hz
      rw [getD_set_set_fst _ _ _ _ hulen, getD_set_set_snd _ _ _ _ hulen, hz]
    · rw [getD_set_fst _ _ _ (Nat.lt_of_succ_lt hulen), getD_set_snd_ne, h2]
  -- cross-multiplied denominators
  · rw [if_neg hd, if_neg hd]
    have hAlen : i + 1 < ((s.set i (s.getD i 0 * c.getD (i + 1) 0 +
        s.getD (i + 1) 0 * c.getD i 0)).set (i + 1)
        (s.getD (i + 1) 0 * c.getD (i + 1) 0)).length := by
      rw [List.length_set, List.length_set]; exact hi
    have hfold := foldl_redStep_pair [5, 4, 3, 2] i
      ((s.set i (s.getD i 0 * c.getD (i + 1) 0 + s.getD (i + 1) 0 * c.getD i 0)).set
        (i + 1) (s.getD (i + 1) 0 * c.getD (i + 1) 0)) hAlen
    rw [show rowPair ((s.set i (s.getD i 0 * c.getD (i + 1) 0 +
        s.getD (i + 1) 0 * c.getD i 0)).set (i + 1)
        (s.getD (i + 1) 0 * c.getD (i + 1) 0)) i
        = (s.getD i 0 * c.getD (i + 1) 0 + s.getD (i + 1) 0 * c.getD i 0,
           s.getD (i + 1) 0 * c.getD (i + 1) 0) by
      unfold rowPair
      rw [getD_set_set_fst _ _ _ _ hi, getD_set_set_snd _ _ _ _ hi]] at hfold
    have h1 := congrArg Prod.fst hfold
    have h2 := congrArg Prod.snd hfold
    simp only [rowPair] at h1 h2
    have hulen : i + 1 < ([5, 4, 3, 2].foldl (redStep i)
        ((s.set i (s.getD i 0 * c.getD (i + 1) 0 + s.getD (i + 1) 0 * c.getD i 0)).set
          (i + 1) (s.getD (i + 1) 0 * c.getD (i + 1) 0))).length := by
      rw [foldl_redStep_length]; exact hAlen
    rw [getD_set_fst _ _ _ (Nat.lt_of_succ_lt hulen), h1, h2]
    split
    · rename_i hz
      rw [getD_set_set_fst _ _ _ _ hulen, getD_set_set_snd _ _ _ _ hulen, hz]
    · rw [getD_set_fst _ _ _ (Nat.lt_of_succ_lt hulen), getD_set_snd_ne, h2]


/-- C1 (amended): `move_symop` keeps all nine rotation entries of the
primary operator unchanged, and each translation row is `combineRow` of
the two input rows: a row whose centering numerator is 0 is left exactly
as in the primary operator (not rewrapped or reduced); a row whose
primary numerator is 0 is taken verbatim from the centering operator;
only when both numerators are nonzero is the row the fraction sum
(numerators added for equal denominators, else cross-multiplied), with
each common factor 5, 4, 3, 2 divided out at most once in that order,
wrapped by `(n + d) % d` (truncated `%`), and canonicalised to `(0, 0)`
when the wrapped numerator is 0. -/
theorem c1_move_symop_rows (s c : List Int) (hs : s.length = 15) :
    (∀ j, j < 9 → (move_symop s c).getD j 0 = s.getD j 0) ∧
    rowPair (move_symop s c) 9 = combineRow (rowPair s 9) (rowPair c 9) ∧
    rowPair (move_symop s c) 11 = combineRow (rowPair s 11) (rowPair c 11) ∧
    rowPair (move_symop s c) 13 = combineRow (rowPair s 13) (rowPair c 13) := by
  refine ⟨?_, ?_, ?_, ?_⟩
  · intro j hj
    unfold move_symop
    rw [moveRowAt_frame _ _ 13 j (by omega) (by omega),
      moveRowAt_frame _ _ 11 j (by omega) (by omega),
      moveRowAt_frame _ _ 9 j (by omega) (by omega)]
  · have hp := moveRowAt_pair s c 9 (by omega)
    unfold move_symop
    unfold rowPair at hp ⊢
    rw [moveRowAt_frame _ _ 13 9 (by omega) (by omega),
      moveRowAt_frame _ _ 13 10 (by omega) (by omega),
      moveRowAt_frame _ _ 11 9 (by omega) (by omega),
      moveRowAt_frame _ _ 11 10 (by omega) (by omega)]
    exact hp
  · have hp := moveRowAt_pair (moveRowAt s c 9) c 11
      (by rw [moveRowAt_length]; omega)
    unfold move_symop
    unfold rowPair at hp ⊢
    rw [moveRowAt_frame _ _ 13 11 (by omega) (by omega),
      moveRowAt_frame _ _ 13 12 (by omega) (by omega), hp,
      moveRowAt_frame _ _ 9 11 (by omega) (by omega),
      moveRowAt_frame _ _ 9 12 (by omega) (by omega)]
  · have hp := moveRowAt_pair (moveRowAt (moveRowAt s c 9) c 11) c 13
      (by rw [moveRowAt_length, moveRowAt_length]; omega)
    unfold move_symop
    unfold rowPair at hp ⊢
    rw [hp,
      moveRowAt_frame _ _ 11 13 (by omega) (by omega),
      moveRowAt_frame _ _ 11 14 (by omega) (by omega),
      moveRowAt_frame _ _ 9 13 (by omega) (by omega),
      moveRowAt_frame _ _ 9 14 (by omega) (by omega)]

/-- C1 witness: the amended row description evaluated at a concrete pair
of operators. -/
theorem c1_witness :
    sampleSym.length = 15 ∧
    ((∀ j, j < 9 → (move_symop sampleSym sampleCen).getD j 0 = sampleSym.getD j 0) ∧
     rowPair (move_symop sampleSym sampleCen) 9 =
       combineRow (rowPair sampleSym 9) (rowPair sampleCen 9) ∧
     rowPair (move_symop sampleSym sampleCen) 11 =
       combineRow (rowPair sampleSym 11) (rowPair sampleCen 11) ∧
     rowPair (move_symop sampleSym sampleCen) 13 =
       combineRow (rowPair sampleSym 13) (rowPair sampleCen 13)) :=
  ⟨by decide, c1_move_symop_rows sampleSym sampleCen (by decide)⟩

/-- C1 counterexample: take the parsed primary operator `"x-1/2,y,z"`
(translation row 0 is `(-1, 2)`) and the parsed centering operator
`"x,y,z"` (all translation rows `(0, 0)`).  `move_symop` skips every row
whose centering numerator is 0, so the composed first row stays
`(-1, 2)`: its value −1/2 is negative — not wrapped into [0,1) — and
differs from the claimed wrapped sum `Int.fract (−1/2 + 0) = 1/2`. -/
theorem c1_counterexample :
    parseSymop "x-1/2,y,z" = Except.ok [1, 0, 0, 0, 1, 0, 0, 0, 1, -1, 2, 0, 0, 0, 0] ∧
    parseSymop "x,y,z" = Except.ok [1, 0, 0, 0, 1, 0, 0, 0, 1, 0, 0, 0, 0, 0, 0] ∧
    move_symop [1, 0, 0, 0, 1, 0, 0, 0, 1, -1, 2, 0, 0, 0, 0]
        [1, 0, 0, 0, 1, 0, 0, 0, 1, 0, 0, 0, 0, 0, 0] =
      [1, 0, 0, 0, 1, 0, 0, 0, 1, -1, 2, 0, 0, 0, 0] ∧
    rowPair (move_symop [1, 0, 0, 0, 1, 0, 0, 0, 1, -1, 2, 0, 0, 0, 0]
        [1, 0, 0, 0, 1, 0, 0, 0, 1, 0, 0, 0, 0, 0, 0]) 9 = (-1, 2) ∧
    fracVal (-1, 2) < 0 ∧
    Int.fract (fracVal (-1, 2) + fracVal (0, 0)) = 1 / 2 := by
  refine ⟨by decide, by decide, by decide, by decide, by norm_num [fracVal], ?_⟩
  unfold fracVal Int.fract
  norm_num

/-! ## C10: the checked `move_symop` never divides by zero -/

theorem redStepC_some (i : Nat) (t : List Int) (j : Int) (hj : j ≠ 0)
    (ht : t.getD (i + 1) 0 ≠ 0) :
    ∃ u, redStepC i t j = some u ∧ u.getD (i + 1) 0 ≠ 0 ∧
      ∀ k, i ≠ k → i + 1 ≠ k → u.getD k 0 = t.getD k 0 := by
  have hb : i + 1 < t.length := getD_pos_of_ne t (i + 1) ht
  unfold redStepC tmodC tdivC
  simp only [if_neg hj, Option.bind_eq_bind, Option.some_bind]
  split
  · rename_i hmod
    refine ⟨(t.set i (Int.tdiv (t.getD i 0) j)).set (i + 1) (Int.tdiv (t.getD (i + 1) 0) j),
      rfl, ?_, ?_⟩
    · rw [getD_set_set_snd _ _ _ _ hb]
      have hdv : j * Int.tdiv (t.getD (i + 1) 0) j = t.getD (i + 1) 0 := by
        have hsum := Int.tdiv_add_tmod (t.getD (i + 1) 0) j
        rw [hmod.2] at hsum
        simpa using hsum
      intro h0
      rw [h0, mul_zero] at hdv
      exact ht hdv.symm
    · intro k h1 h2
      rw [getD_set_ne _ _ _ _ h2, getD_set_ne _ _ _ _ h1]
  · exact ⟨t, rfl, ht, fun k _ _ => rfl⟩

theorem foldlM_redStepC_some (js : List Int) (i : Nat) (t : List Int)
    (hjs : ∀ j ∈ js, j ≠ 0) (ht : t.getD (i + 1) 0 ≠ 0) :
    ∃ u, List.foldlM (redStepC i) t js = some u ∧ u.getD (i + 1) 0 ≠ 0 ∧
      ∀ k, i ≠ k → i + 1 ≠ k → u.getD k 0 = t.getD k 0 := by
  induction js generalizing t with
  | nil => exact ⟨t, rfl, ht, fun k _ _ => rfl⟩
  | cons j js ih =>
    obtain ⟨u1, hu1, hu1ne, hu1f⟩ := redStepC_some i t j (hjs j (by simp)) ht
    obtain ⟨u2, hu2, hu2ne, hu2f⟩ := ih u1 (fun a ha => hjs a (by simp [ha])) hu1ne
    refine ⟨u2, ?_, hu2ne, fun k h1 h2 => (hu2f k h1 h2).trans (hu1f k h1 h2)⟩
    rw [List.foldlM_cons, hu1]
    simpa using hu2

theorem moveRowAtC_some (s c : List Int) (i : Nat)
    (hs : s.getD i 0 ≠ 0 → s.getD (i + 1) 0 ≠ 0)
    (hc : c.getD i 0 ≠ 0 → c.getD (i + 1) 0 ≠ 0) :
    ∃ u, moveRowAtC s c i = some u ∧
      ∀ k, i ≠ k → i + 1 ≠ k → u.getD k 0 = s.getD k 0 := by
  by_cases hc1 : c.getD i 0 = 0
  · exact ⟨s, by unfold moveRowAtC; rw [if_pos hc1], fun k _ _ => rfl⟩
  by_cases hs1 : s.getD i 0 = 0
  · refine ⟨(s.set i (c.getD i 0)).set (i + 1) (c.getD (i + 1) 0),
      by unfold moveRowAtC; rw [if_neg hc1, if_pos hs1], fun k h1 h2 => ?_⟩
    rw [getD_set_ne _ _ _ _ h2, getD_set_ne _ _ _ _ h1]
  have hsd : s.getD (i + 1) 0 ≠ 0 := hs hs1
  have hcd : c.getD (i + 1) 0 ≠ 0 := hc hc1
  have hb : i + 1 < s.length := getD_pos_of_ne s (i + 1) hsd
  -- the summed row before reduction
  have hs1ex : ∃ s1, (if s.getD (i + 1) 0 = c.getD (i + 1) 0
        then s.set i (s.getD i 0 + c.getD i 0)
        else (s.set i (s.getD i 0 * c.getD (i + 1) 0 + s.getD (i + 1) 0 * c.getD i 0)).set
          (i + 1) (s.getD (i + 1) 0 * c.getD (i + 1) 0)) = s1 ∧
      s1.getD (i + 1) 0 ≠ 0 ∧ ∀ k, i ≠ k → i + 1 ≠ k → s1.getD k 0 = s.getD k 0 := by
    split
    · refine ⟨_, rfl, ?_, fun k h1 h2 => getD_set_ne _ _ _ _ h1⟩
      rw [getD_set_snd_ne]
      exact hsd
    · refine ⟨_, rfl, ?_, fun k h1 h2 => by rw [getD_set_ne _ _ _ _ h2, getD_set_ne _ _ _ _ h1]⟩
      rw [getD_set_set_snd _ _ _ _ hb]
      exact mul_ne_zero hsd hcd
  obtain ⟨s1, hs1eq, hs1ne, hs1f⟩ := hs1ex
  obtain ⟨s2, hs2, hs2ne, hs2f⟩ :=
    foldlM_redStepC_some [5, 4, 3, 2] i s1 (by decide) hs1ne
  refine ⟨if (s2.set i (Int.tmod (s2.getD i 0 + s2.getD (i + 1) 0) (s2.getD (i + 1) 0))).getD i 0 = 0
      then (s2.set i (Int.tmod (s2.getD i 0 + s2.getD (i + 1) 0) (s2.getD (i + 1) 0))).set (i + 1) 0
      else s2.set i (Int.tmod (s2.getD i 0 + s2.getD (i + 1) 0) (s2.getD (i + 1) 0)), ?_, ?_⟩
  · simp only [moveRowAtC]
    rw [if_neg hc1, if_neg hs1, hs1eq, hs2]
    simp only [Option.bind_eq_bind, Option.some_bind]
    unfold tmodC
    rw [if_neg hs2ne]
    simp only [Option.bind_eq_bind, Option.some_bind]
    rfl
  · intro k h1 h2
    have hfr : ∀ m : List Int, ((m.set i (Int.tmod (m.getD i 0 + m.getD (i + 1) 0)
        (m.getD (i + 1) 0))).set (i + 1) 0).getD k 0 = m.getD k 0 := fun m => by
      rw [getD_set_ne _ _ _ _ h2, getD_set_ne _ _ _ _ h1]
    split
    · rw [hfr s2, hs2f k h1 h2, hs1f k h1 h2]
    · rw [getD_set_ne _ _ _ _ h1, hs2f k h1 h2, hs1f k h1 h2]

/-- C10: under the precondition that every translation fraction of both
operators has a nonzero denominator whenever its numerator is nonzero,
the checked `move_symop` — in which every `/` and `%` fails on a zero
divisor — always succeeds: the matched or cross-multiplied common
denominator and the denominator of the final wrapping `%` are never 0. -/
theorem c10_move_symop_total (s c : List Int) (hs : rowsWellFormed s)
    (hc : rowsWellFormed c) : (move_symopC s c).isSome = true := by
  obtain ⟨hs9, hs11, hs13⟩ := hs
  obtain ⟨hc9, hc11, hc13⟩ := hc
  obtain ⟨u1, hu1, hu1f⟩ := moveRowAtC_some s c 9 hs9 hc9
  have h11 : u1.getD 11 0 ≠ 0 → u1.getD 12 0 ≠ 0 := by
    rw [hu1f 11 (by omega) (by omega), hu1f 12 (by omega) (by omega)]
    exact hs11
  obtain ⟨u2, hu2, hu2f⟩ := moveRowAtC_some u1 c 11 h11 hc11
  have h13 : u2.getD 13 0 ≠ 0 → u2.getD 14 0 ≠ 0 := by
    rw [hu2f 13 (by omega) (by omega), hu2f 14 (by omega) (by omega),
      hu1f 13 (by omega) (by omega), hu1f 14 (by omega) (by omega)]
    exact hs13
  obtain ⟨u3, hu3, _⟩ := moveRowAtC_some u2 c 13 h13 hc13
  unfold move_symopC
  simp [hu1, hu2, hu3]

/-- C10 witness: the checked composition succeeds on concrete
well-formed operators. -/
theorem c10_witness :
    rowsWellFormed sampleSym ∧ rowsWellFormed sampleCen ∧
    (move_symopC sampleSym sampleCen).isSome = true :=
  ⟨by decide, by decide,
    c10_move_symop_total sampleSym sampleCen (by decide) (by decide)⟩

/-! ## C4: the pair-cache cutoff -/

theorem foldl_min_lt (l : List ℚ) (a x : ℚ) (h : l.foldl min a < x) :
    a < x ∨ ∃ b ∈ l, b < x := by
  induction l generalizing a with
  | nil => exact Or.inl h
  | cons b l ih =>
    rcases ih (min a b) (by simpa using h) with h1 | ⟨d, hd, hdx⟩
    · rcases min_lt_iff.mp h1 with h2 | h2
      · exact Or.inl h2
      · exact Or.inr ⟨b, by simp, h2⟩
    · exact Or.inr ⟨d, by simp [hd], hdx⟩

/-- C4 (amended): in crystal mode a pair is cached only when its
minimal-image squared distance is below the squared cutoff 25 (so some
transform brings the pair below the cutoff); in plain mode every pair
`i < j` is cached unconditionally, whatever its distance (the cutoff
test is refuted for plain mode by `c4_counterexample`). -/
theorem c4_cache_cutoff (ts : List (Pt → Pt)) (locs : List Pt) :
    (∀ i j v, ((i, j), v) ∈ crystalPairs ts locs →
      v < 25 ∧ v = minR2 ts (locs.getD i origin) (locs.getD j origin) ∧
        ∃ rt ∈ ts, sqDist (locs.getD i origin) (rt (locs.getD j origin)) < 25) ∧
    (∀ k l, k < l → l < locs.length →
      ((k, l), sqDist (locs.getD k origin) (locs.getD l origin)) ∈ plainPairs locs) := by
  constructor
  · intro i j v hmem
    simp only [crystalPairs, List.mem_flatMap, List.mem_filterMap] at hmem
    obtain ⟨a, ha, b, hb, hfb⟩ := hmem
    by_cases hlt : minR2 ts (locs.getD a origin) (locs.getD b origin) < 25
    · rw [if_pos hlt] at hfb
      simp only [Option.some.injEq, Prod.mk.injEq] at hfb
      obtain ⟨⟨hai, hbj⟩, hv⟩ := hfb
      subst hai
      subst hbj
      subst hv
      refine ⟨hlt, rfl, ?_⟩
      unfold minR2 at hlt
      rcases foldl_min_lt _ _ _ hlt with hmax | ⟨d, hd, hdx⟩
      · exact absurd hmax (by norm_num [dblMax])
      · rw [List.mem_map] at hd
        obtain ⟨rt, hrt, hrteq⟩ := hd
        exact ⟨rt, hrt, by rw [hrteq]; exact hdx⟩
    · rw [if_neg hlt] at hfb
      exact Option.noConfusion hfb
  · intro k l hkl hl
    simp only [plainPairs, List.mem_flatMap, List.mem_map]
    refine ⟨k, List.mem_range.mpr (Nat.lt_trans hkl hl), l, ?_, rfl⟩
    rw [List.mem_filter]
    exact ⟨List.mem_range.mpr hl, by simpa using hkl⟩

/-- C4 counterexample: in plain mode, two atoms 10 Å apart (squared
distance 100) are cached although 100 is not below the squared cutoff 25
— the plain-mode constructor stores every pair with no cutoff test,
refuting "pairs at or above the cutoff are never stored" for plain
mode. -/
theorem c4_counterexample :
    ((0, 1), (100 : ℚ)) ∈ plainPairs [⟨0, 0, 0⟩, ⟨10, 0, 0⟩] ∧ ¬ ((100 : ℚ) < 25) := by
  constructor
  · norm_num [plainPairs, sqDist, sqNorm, psub, origin, List.range_succ]
  · norm_num

/-! ## C5, C6: query and near -/

theorem canonKey_symm (ia ib : Nat) : canonKey ia ib = canonKey ib ia := by
  unfold canonKey
  rcases Nat.lt_trichotomy ia ib with h | h | h
  · rw [if_neg (by omega), if_pos h]
  · subst h; rfl
  · rw [if_pos h, if_neg (by omega)]

/-- C5: for two atoms both present in the index, `query` is symmetric,
never errors, and returns the cached value of the canonical pair when
the pair is cached and the sentinel 100 otherwise. -/
theorem c5_query_symmetric (dm : DistMap) (a b : String)
    (ha : (dm.index.lookup a).isSome = true) (hb : (dm.index.lookup b).isSome = true) :
    dmQuery dm a b = dmQuery dm b a ∧
    ∃ ia ib v, dm.index.lookup a = some ia ∧ dm.index.lookup b = some ib ∧
      dmQuery dm a b = Except.ok v ∧
      (dm.dist.lookup (canonKey ia ib) = some v ∨
        (dm.dist.lookup (canonKey ia ib) = none ∧ v = 100)) := by
  obtain ⟨ia, hia⟩ := Option.isSome_iff_exists.mp ha
  obtain ⟨ib, hib⟩ := Option.isSome_iff_exists.mp hb
  constructor
  · unfold dmQuery
    rw [hia, hib]
    show Except.ok ((dm.dist.lookup (canonKey ia ib)).getD 100) =
      Except.ok ((dm.dist.lookup (canonKey ib ia)).getD 100)
    rw [canonKey_symm ia ib]
  · refine ⟨ia, ib, (dm.dist.lookup (canonKey ia ib)).getD 100, hia, hib, ?_, ?_⟩
    · unfold dmQuery
      rw [hia, hib]
    · cases hl : dm.dist.lookup (canonKey ia ib) with
      | none => exact Or.inr ⟨rfl, rfl⟩
      | some w => exact Or.inl rfl

/-- C5 witness: a two-atom map with one cached pair, queried both ways. -/
theorem c5_witness :
    ((([("A", 0), ("B", 1)] : List (String × Nat)).lookup "A").isSome = true) ∧
    ((([("A", 0), ("B", 1)] : List (String × Nat)).lookup "B").isSome = true) ∧
    (dmQuery ⟨[("A", 0), ("B", 1)], [((0, 1), 4)]⟩ "A" "B" =
        dmQuery ⟨[("A", 0), ("B", 1)], [((0, 1), 4)]⟩ "B" "A" ∧
      ∃ ia ib v, (([("A", 0), ("B", 1)] : List (String × Nat)).lookup "A") = some ia ∧
        (([("A", 0), ("B", 1)] : List (String × Nat)).lookup "B") = some ib ∧
        dmQuery ⟨[("A", 0), ("B", 1)], [((0, 1), 4)]⟩ "A" "B" = Except.ok v ∧
        ((([((0, 1), (4 : ℚ))] : List ((Nat × Nat) × ℚ)).lookup (canonKey ia ib) = some v ∨
          (([((0, 1), (4 : ℚ))] : List ((Nat × Nat) × ℚ)).lookup (canonKey ia ib) = none ∧
            v = 100)))) :=
  ⟨by decide, by decide,
    c5_query_symmetric ⟨[("A", 0), ("B", 1)], [((0, 1), 4)]⟩ "A" "B" (by decide) (by decide)⟩

/-- C6: `query` errors exactly when at least one of the two atoms is
absent from the index, and `near` errors exactly when its atom is
absent; with all atoms indexed neither ever errors. -/
theorem c6_error_iff_unindexed (dm : DistMap) (a b : String) (maxD : ℚ) :
    (exOk (dmQuery dm a b) = false ↔
      dm.index.lookup a = none ∨ dm.index.lookup b = none) ∧
    (exOk (dmNear dm a maxD) = false ↔ dm.index.lookup a = none) := by
  constructor
  · cases hA : dm.index.lookup a with
    | none => simp [dmQuery, hA, exOk]
    | some ia =>
      cases hB : dm.index.lookup b with
      | none => simp [dmQuery, hA, hB, exOk]
      | some ib => simp [dmQuery, hA, hB, exOk]
  · cases hA : dm.index.lookup a with
    | none => simp [dmNear, hA, exOk]
    | some ia => simp [dmNear, hA, exOk]

/-! ## C7, C8: generator main and `toCell` -/

/-- C7: when the try block raises (any exception, e.g. an unopenable
input file), `main` leaves the destination file exactly as it was — the
temporary is never renamed over it — but the process exit status is 0,
not the nonzero error status the specification claims: the catch block
only reports the error and falls through to `return 0`. -/
theorem c7_failed_run (dest0 : Option String) (m : String) :
    toolRun dest0 (Except.error m) = (dest0, 0) := rfl

theorem whileAddNeg_done (f : Nat) (step p : ℚ) (h : ¬ p < 0) :
    whileAddNeg f step p = p := by
  cases f <;> simp [whileAddNeg, h]

theorem whileSubGt_done (f : Nat) (bound step p : ℚ) (h : ¬ bound < p) :
    whileSubGt f bound step p = p := by
  cases f <;> simp [whileSubGt, h]

/-- C8: with cell edges a = 10, b = 5, c = 5 and an atom at (1, 9, 1),
`toCell` returns the point unchanged (no loop fires, for every fuel),
yet the y coordinate 9 exceeds the b edge 5: the source's y and z loops
compare against `cell.a()` instead of `cell.b()` / `cell.c()`, so the
result is not wrapped into the cell on those axes. -/
theorem c8_toCell_y_outside_cell (fuel : Nat) :
    toCell fuel ⟨10, 5, 5⟩ ⟨1, 9, 1⟩ = ⟨1, 9, 1⟩ ∧
    ¬ ((toCell fuel ⟨10, 5, 5⟩ ⟨1, 9, 1⟩).y ≤ (5 : ℚ)) := by
  have h : toCell fuel ⟨10, 5, 5⟩ ⟨1, 9, 1⟩ = ⟨1, 9, 1⟩ := by
    unfold toCell
    rw [whileAddNeg_done _ _ _ (by norm_num), whileSubGt_done _ _ _ _ (by norm_num),
      whileAddNeg_done _ _ _ (by norm_num), whileSubGt_done _ _ _ _ (by norm_num),
      whileAddNeg_done _ _ _ (by norm_num), whileSubGt_done _ _ _ _ (by norm_num)]
  refine ⟨h, ?_⟩
  rw [h]
  norm_num

end Cifpp
